import Mathlib

/-!
Verification of the team-finder queue engine of `src/bot.js`.

The in-memory queue model, the matching sweep (`tryMatching`), the
interaction handlers that mutate the queues, and the Redis persistence
layer are shallowly embedded as pure Lean functions.  Discord identifiers
are strings, JS timestamps are naturals, and `additionalNeeded` (a JS
number manipulated with `> 0`, `--` and `=== 0`) is an integer.
-/

namespace RcBot

/-- Entry of the `teamLeaders` array:
`{ userId, additionalNeeded, crew: [userId, ...], timestamp }`. -/
structure LeaderEntry where
  userId : String
  additionalNeeded : Int
  crew : List String
  timestamp : Nat
deriving DecidableEq

/-- Entry of the `teamMembers` array: `{ userId, timestamp }`. -/
structure MemberEntry where
  userId : String
  timestamp : Nat
deriving DecidableEq

/-- The pair of in-memory queues (`teamLeaders`, `teamMembers`). -/
@[ext]
structure QueueState where
  leaders : List LeaderEntry
  members : List MemberEntry
deriving DecidableEq

/-- The team handed to `createTeamThread` when a leader's need reaches 0. -/
structure CompletedTeam where
  leaderId : String
  crewIds : List String
deriving DecidableEq

/-- Observable side effects of a handler, in program order:
`sweepStart` marks entry into `tryMatching`, `notify` a call to
`createTeamThread`, `removeLeader` the `teamLeaders.splice` that drops a
completed leader, and `persist` a call to `updateQueuesInRedis` carrying
the queues it writes. -/
inductive Event where
  | sweepStart : Event
  | notify (leaderId : String) (crewIds : List String) : Event
  | removeLeader (leaderId : String) : Event
  | persist (leaders : List LeaderEntry) (members : List MemberEntry) : Event
deriving DecidableEq

/-- Result of one `tryMatching` call: final queues, the completed teams in
emission order, and the trace of side effects. -/
structure SweepResult where
  state : QueueState
  completed : List CompletedTeam
  events : List Event
deriving DecidableEq

/-- The inner `while (leader.additionalNeeded > 0 && teamMembers.length > 0)`
loop of `tryMatching`: pop the oldest member; a pop whose `userId` equals the
leader's own id is discarded (`continue`), otherwise it is appended to the
crew and the need decremented. -/
def recruitLoop : LeaderEntry → List MemberEntry → LeaderEntry × List MemberEntry
  | l, [] => (l, [])
  | l, m :: rest =>
    if l.additionalNeeded ≤ 0 then (l, m :: rest)
    else if m.userId = l.userId then recruitLoop l rest
    else
      recruitLoop
        { l with crew := l.crew ++ [m.userId], additionalNeeded := l.additionalNeeded - 1 }
        rest

/-- The `for` loop of `tryMatching` over `teamLeaders`: each leader is
processed once in queue order against the current member queue; a leader
whose need is exactly 0 afterwards is handed to `createTeamThread`
(`notify`) and then spliced out (`removeLeader`). -/
def sweepGo : List LeaderEntry → List MemberEntry → SweepResult
  | [], ms => ⟨⟨[], ms⟩, [], []⟩
  | l :: rest, ms =>
    let p := recruitLoop l ms
    let r := sweepGo rest p.2
    if p.1.additionalNeeded = 0 then
      ⟨⟨r.state.leaders, r.state.members⟩,
        ⟨p.1.userId, p.1.crew⟩ :: r.completed,
        Event.notify p.1.userId p.1.crew :: Event.removeLeader p.1.userId :: r.events⟩
    else
      ⟨⟨p.1 :: r.state.leaders, r.state.members⟩, r.completed, r.events⟩

/-- `tryMatching`: sweep all leaders, then `updateQueuesInRedis` once. -/
def tryMatching (s : QueueState) : SweepResult :=
  let r := sweepGo s.leaders s.members
  ⟨r.state, r.completed,
    Event.sweepStart :: r.events ++ [Event.persist r.state.leaders r.state.members]⟩

/-- Final queues and side-effect trace of one interaction handler. -/
structure HandlerResult where
  state : QueueState
  events : List Event
deriving DecidableEq

/-- `leaderEntry.additionalNeeded = n` on the first entry found by
`teamLeaders.find(entry => entry.userId === userId)`. -/
def setLeaderNeed (uid : String) (n : Int) : List LeaderEntry → List LeaderEntry
  | [] => []
  | l :: rest =>
    if l.userId = uid then { l with additionalNeeded := n } :: rest
    else l :: setLeaderNeed uid n rest

/-- `handleLookingForTeam` (the `looking_for_team` button): a current leader
only gets a switch-confirmation dialog, a current member only a notice; an
unaffiliated user is pushed onto `teamMembers`, then `updateQueuesInRedis`
and `tryMatching` run. -/
def handleLookingForTeam (uid : String) (t : Nat) (s : QueueState) : HandlerResult :=
  if ∃ l ∈ s.leaders, l.userId = uid then ⟨s, []⟩
  else if ∃ m ∈ s.members, m.userId = uid then ⟨s, []⟩
  else
    let s1 : QueueState := ⟨s.leaders, s.members ++ [⟨uid, t⟩]⟩
    let r := tryMatching s1
    ⟨r.state, Event.persist s1.leaders s1.members :: r.events⟩

/-- `handleMemberCountSelect` (the `select_member_count` menu).  The selected
string goes through `parseInt`; only a `NaN` result is rejected, modelled as
`none`.  A parsed integer updates the existing leader entry in place or pushes
a new one with an empty crew, then `updateQueuesInRedis` and `tryMatching`
run. -/
def handleMemberCountSelect (uid : String) (sel : Option Int) (t : Nat)
    (s : QueueState) : HandlerResult :=
  match sel with
  | none => ⟨s, []⟩
  | some n =>
    let s1 : QueueState :=
      if ∃ l ∈ s.leaders, l.userId = uid then ⟨setLeaderNeed uid n s.leaders, s.members⟩
      else ⟨s.leaders ++ [⟨uid, n, [], t⟩], s.members⟩
    let r := tryMatching s1
    ⟨r.state, Event.persist s1.leaders s1.members :: r.events⟩

/-- The queue mutation of the `switch_to_team` button branch: filter the
user out of `teamLeaders` (the whole entry, crew included), push a fresh
`teamMembers` entry with the current timestamp. -/
def switchToTeamMutate (uid : String) (t : Nat) (s : QueueState) : QueueState :=
  ⟨s.leaders.filter (fun l => decide (l.userId ≠ uid)), s.members ++ [⟨uid, t⟩]⟩

/-- The `switch_to_team` button branch: the mutation above, then
`updateQueuesInRedis` and `tryMatching` run. -/
def switchToTeamStep (uid : String) (t : Nat) (s : QueueState) : HandlerResult :=
  let s1 := switchToTeamMutate uid t s
  let r := tryMatching s1
  ⟨r.state, Event.persist s1.leaders s1.members :: r.events⟩

/-- The `switch_to_leader` button branch: filter the user out of
`teamMembers` and show the member-count menu.  No sweep and no Redis write
happen in this branch. -/
def switchToLeaderStep (uid : String) (s : QueueState) : HandlerResult :=
  ⟨⟨s.leaders, s.members.filter (fun m => decide (m.userId ≠ uid))⟩, []⟩

/-- The `/admin clear` subcommand: both queues emptied, then
`updateQueuesInRedis`; no sweep. -/
def adminClearStep : HandlerResult :=
  ⟨⟨[], []⟩, [Event.persist [] []]⟩

/-- States reachable from the empty queues by the user actions of the
participant state machine: request-join-team (`handleLookingForTeam`),
request-become-leader and update-recruitment-need (a member-count selection
with one of the menu's supported values 1 or 2), switch-to-member,
switch-to-leader, admin clear, and forced matching sweeps. -/
inductive Reach : QueueState → Prop where
  | start : Reach ⟨[], []⟩
  | join (uid : String) (t : Nat) (s : QueueState) :
      Reach s → Reach (handleLookingForTeam uid t s).state
  | selectCount (uid : String) (n : Int) (t : Nat) (s : QueueState) :
      Reach s → n = 1 ∨ n = 2 → Reach (handleMemberCountSelect uid (some n) t s).state
  | switchToMember (uid : String) (t : Nat) (s : QueueState) :
      Reach s → Reach (switchToTeamStep uid t s).state
  | switchToLeader (uid : String) (s : QueueState) :
      Reach s → Reach (switchToLeaderStep uid s).state
  | clear (s : QueueState) : Reach s → Reach adminClearStep.state
  | sweep (s : QueueState) : Reach s → Reach (tryMatching s).state

/-- The Redis key-value store as seen through the two queue keys
`queue:teamLeaders` and `queue:teamMembers` (values kept in their decoded
form; JSON round-tripping is out of scope). -/
structure RedisStore where
  leadersVal : List LeaderEntry
  membersVal : List MemberEntry
deriving DecidableEq

/-- A single `redisClient.set` on one of the two queue keys. -/
inductive RedisOp where
  | setLeaders (v : List LeaderEntry) : RedisOp
  | setMembers (v : List MemberEntry) : RedisOp
deriving DecidableEq

/-- `updateQueuesInRedis`: two sequential `set` calls, leaders first. -/
def updateQueuesInRedis (s : QueueState) : List RedisOp :=
  [RedisOp.setLeaders s.leaders, RedisOp.setMembers s.members]

/-- Effect of one `set` on the store. -/
def applyOp (st : RedisStore) : RedisOp → RedisStore
  | RedisOp.setLeaders v => ⟨v, st.membersVal⟩
  | RedisOp.setMembers v => ⟨st.leadersVal, v⟩

/-- Effect of a sequence of `set`s, applied in order. -/
def applyOps (st : RedisStore) (ops : List RedisOp) : RedisStore :=
  ops.foldl applyOp st

/-- The `createTeamThread` call followed by the `splice` removal, as they
occur for each completed team in emission order. -/
def notifierCalls : List CompletedTeam → List Event
  | [] => []
  | ct :: rest =>
    Event.notify ct.leaderId ct.crewIds :: Event.removeLeader ct.leaderId :: notifierCalls rest

/-- All ids recruited into some queued leader's crew, in queue order. -/
def allCrews : List LeaderEntry → List String
  | [] => []
  | l :: rest => l.crew ++ allCrews rest

/-- All ids recruited into some completed team's crew, in emission order. -/
def allCompletedCrews : List CompletedTeam → List String
  | [] => []
  | ct :: rest => ct.crewIds ++ allCompletedCrews rest

/-- Well-formedness of the data model: every id — leader ids, recruited crew
ids, member ids — occurs at most once across the whole queue state. -/
def WFIds (s : QueueState) : Prop :=
  (s.leaders.map LeaderEntry.userId ++ allCrews s.leaders
    ++ s.members.map MemberEntry.userId).Nodup

instance (s : QueueState) : Decidable (WFIds s) := by
  unfold WFIds
  exact List.nodupDecidable _

/-- The single-affiliation invariant: no id is registered simultaneously as
a team leader and as a queued team member. -/
def singleAffiliation (s : QueueState) : Prop :=
  ∀ uid : String, uid ∈ s.leaders.map LeaderEntry.userId →
    uid ∉ s.members.map MemberEntry.userId

/-- Every queued leader still needs at least one member. -/
def leaderNeedsPos (s : QueueState) : Prop :=
  ∀ l ∈ s.leaders, 0 < l.additionalNeeded

/-- The handler ran a matching sweep, and its last Redis write persisted
exactly the queues it finished with. -/
def sweepThenResync (r : HandlerResult) : Prop :=
  Event.sweepStart ∈ r.events
    ∧ r.events.getLast? = some (Event.persist r.state.leaders r.state.members)

/-! ### Lemmas about the inner recruitment loop -/

theorem recruitLoop_userId (l : LeaderEntry) (ms : List MemberEntry) :
    (recruitLoop l ms).1.userId = l.userId := by
  induction ms generalizing l with
  | nil => rfl
  | cons m rest ih =>
    simp only [recruitLoop]
    split_ifs with h1 h2
    · rfl
    · exact ih l
    · exact ih _

theorem recruitLoop_sum (l : LeaderEntry) (ms : List MemberEntry) :
    (recruitLoop l ms).1.additionalNeeded + ((recruitLoop l ms).1.crew.length : Int)
      = l.additionalNeeded + (l.crew.length : Int) := by
  induction ms generalizing l with
  | nil => rfl
  | cons m rest ih =>
    simp only [recruitLoop]
    split_ifs with h1 h2
    · rfl
    · exact ih l
    · rw [ih _]
      simp only [List.length_append, List.length_cons, List.length_nil]
      push_cast
      ring

theorem recruitLoop_nonneg (l : LeaderEntry) (ms : List MemberEntry)
    (h0 : 0 ≤ l.additionalNeeded) :
    0 ≤ (recruitLoop l ms).1.additionalNeeded := by
  induction ms generalizing l with
  | nil => exact h0
  | cons m rest ih =>
    simp only [recruitLoop]
    split_ifs with h1 h2
    · exact h0
    · exact ih l h0
    · exact ih _ (show (0:Int) ≤ l.additionalNeeded - 1 by omega)

theorem recruitLoop_drop (l : LeaderEntry) (ms : List MemberEntry) :
    ∃ k, (recruitLoop l ms).2 = ms.drop k := by
  induction ms generalizing l with
  | nil => exact ⟨0, rfl⟩
  | cons m rest ih =>
    simp only [recruitLoop]
    split_ifs with h1 h2
    · exact ⟨0, rfl⟩
    · obtain ⟨k, hk⟩ := ih l
      exact ⟨k + 1, by simpa using hk⟩
    · obtain ⟨k, hk⟩ := ih
        { l with crew := l.crew ++ [m.userId], additionalNeeded := l.additionalNeeded - 1 }
      exact ⟨k + 1, by simpa using hk⟩

theorem recruitLoop_drained (l : LeaderEntry) (ms : List MemberEntry)
    (h0 : 0 ≤ l.additionalNeeded)
    (hne : (recruitLoop l ms).1.additionalNeeded ≠ 0) :
    (recruitLoop l ms).2 = [] := by
  induction ms generalizing l with
  | nil => rfl
  | cons m rest ih =>
    simp only [recruitLoop] at hne ⊢
    split_ifs at hne ⊢ with h1 h2
    · exact absurd (by omega : l.additionalNeeded = 0) hne
    · exact ih l h0 hne
    · exact ih _ (show (0:Int) ≤ l.additionalNeeded - 1 by omega) hne

theorem recruitLoop_crew_subset (l : LeaderEntry) (ms : List MemberEntry) (x : String)
    (hx : x ∈ (recruitLoop l ms).1.crew) :
    x ∈ l.crew ∨ x ∈ ms.map MemberEntry.userId := by
  induction ms generalizing l with
  | nil => exact Or.inl hx
  | cons m rest ih =>
    simp only [recruitLoop] at hx
    split_ifs at hx with h1 h2
    · exact Or.inl hx
    · rcases ih l hx with h | h
      · exact Or.inl h
      · exact Or.inr (by simp [h])
    · rcases ih _ hx with h | h
      · rcases List.mem_append.1 h with h' | h'
        · exact Or.inl h'
        · refine Or.inr ?_
          simp only [List.mem_singleton] at h'
          simp [h']
      · exact Or.inr (by simp [h])

theorem recruitLoop_noSelf (l : LeaderEntry) (ms : List MemberEntry)
    (hself : l.userId ∉ ms.map MemberEntry.userId) :
    ∃ k, (recruitLoop l ms).1.crew = l.crew ++ (ms.take k).map MemberEntry.userId
      ∧ (recruitLoop l ms).2 = ms.drop k := by
  induction ms generalizing l with
  | nil => exact ⟨0, by simp [recruitLoop]⟩
  | cons m rest ih =>
    simp only [recruitLoop]
    split_ifs with h1 h2
    · exact ⟨0, by simp⟩
    · exact absurd (by simp [← h2]) hself
    · have hself' : l.userId ∉ rest.map MemberEntry.userId := by
        intro hmem
        exact hself (by simp [hmem])
      obtain ⟨k, hc, hd⟩ := ih
        { l with crew := l.crew ++ [m.userId], additionalNeeded := l.additionalNeeded - 1 }
        hself'
      refine ⟨k + 1, ?_, by simpa using hd⟩
      simp only [List.take_succ_cons, List.map_cons] at *
      rw [hc]
      simp

/-! ### Lemmas about the sweep over the leader queue -/

theorem sweepGo_nil (ms : List MemberEntry) : sweepGo [] ms = ⟨⟨[], ms⟩, [], []⟩ := rfl

theorem sweepGo_cons (l : LeaderEntry) (rest : List LeaderEntry) (ms : List MemberEntry) :
    sweepGo (l :: rest) ms =
      if (recruitLoop l ms).1.additionalNeeded = 0 then
        ⟨⟨(sweepGo rest (recruitLoop l ms).2).state.leaders,
            (sweepGo rest (recruitLoop l ms).2).state.members⟩,
          ⟨(recruitLoop l ms).1.userId, (recruitLoop l ms).1.crew⟩
            :: (sweepGo rest (recruitLoop l ms).2).completed,
          Event.notify (recruitLoop l ms).1.userId (recruitLoop l ms).1.crew
            :: Event.removeLeader (recruitLoop l ms).1.userId
            :: (sweepGo rest (recruitLoop l ms).2).events⟩
      else
        ⟨⟨(recruitLoop l ms).1 :: (sweepGo rest (recruitLoop l ms).2).state.leaders,
            (sweepGo rest (recruitLoop l ms).2).state.members⟩,
          (sweepGo rest (recruitLoop l ms).2).completed,
          (sweepGo rest (recruitLoop l ms).2).events⟩ := rfl

theorem sweepGo_cons_members (l : LeaderEntry) (rest : List LeaderEntry)
    (ms : List MemberEntry) :
    (sweepGo (l :: rest) ms).state.members
      = (sweepGo rest (recruitLoop l ms).2).state.members := by
  rw [sweepGo_cons]
  split_ifs <;> rfl

theorem sweepGo_members_drop (ls : List LeaderEntry) (ms : List MemberEntry) :
    ∃ k, (sweepGo ls ms).state.members = ms.drop k := by
  induction ls generalizing ms with
  | nil => exact ⟨0, rfl⟩
  | cons l rest ih =>
    obtain ⟨k1, h1⟩ := recruitLoop_drop l ms
    obtain ⟨k2, h2⟩ := ih (recruitLoop l ms).2
    refine ⟨k1 + k2, ?_⟩
    rw [sweepGo_cons_members, h2, h1, List.drop_drop]

theorem sweepGo_members_nil (ls : List LeaderEntry) :
    (sweepGo ls []).state.members = [] := by
  obtain ⟨k, h⟩ := sweepGo_members_drop ls []
  simpa using h

theorem sweepGo_kept_need (ls : List LeaderEntry) (ms : List MemberEntry) :
    ∀ l' ∈ (sweepGo ls ms).state.leaders, l'.additionalNeeded ≠ 0 := by
  induction ls generalizing ms with
  | nil => intro l' h; simp [sweepGo_nil] at h
  | cons l rest ih =>
    intro l' h
    rw [sweepGo_cons] at h
    split_ifs at h with hc
    · exact ih _ l' h
    · rcases List.mem_cons.1 h with rfl | h'
      · exact hc
      · exact ih _ l' h'

theorem sweepGo_pos (ls : List LeaderEntry) (ms : List MemberEntry)
    (h : ∀ l ∈ ls, 0 < l.additionalNeeded) :
    ∀ l' ∈ (sweepGo ls ms).state.leaders, 0 < l'.additionalNeeded := by
  induction ls generalizing ms with
  | nil => intro l' hl'; simp [sweepGo_nil] at hl'
  | cons l rest ih =>
    intro l' hl'
    rw [sweepGo_cons] at hl'
    split_ifs at hl' with hc
    · exact ih _ (fun x hx => h x (List.mem_cons_of_mem _ hx)) l' hl'
    · rcases List.mem_cons.1 hl' with rfl | h'
      · have hnn := recruitLoop_nonneg l ms (le_of_lt (h l (List.mem_cons_self _ _)))
        omega
      · exact ih _ (fun x hx => h x (List.mem_cons_of_mem _ hx)) l' h'

theorem sweepGo_drained (ls : List LeaderEntry) (ms : List MemberEntry)
    (h : ∀ l ∈ ls, 0 < l.additionalNeeded) :
    (sweepGo ls ms).state.leaders = [] ∨ (sweepGo ls ms).state.members = [] := by
  induction ls generalizing ms with
  | nil => exact Or.inl rfl
  | cons l rest ih =>
    rw [sweepGo_cons]
    split_ifs with hc
    · exact ih _ (fun x hx => h x (List.mem_cons_of_mem _ hx))
    · refine Or.inr ?_
      have hd : (recruitLoop l ms).2 = [] :=
        recruitLoop_drained l ms (le_of_lt (h l (List.mem_cons_self _ _))) hc
      show (sweepGo rest (recruitLoop l ms).2).state.members = []
      rw [hd]
      exact sweepGo_members_nil rest

theorem sweepGo_events_eq (ls : List LeaderEntry) (ms : List MemberEntry) :
    (sweepGo ls ms).events = notifierCalls (sweepGo ls ms).completed := by
  induction ls generalizing ms with
  | nil => rfl
  | cons l rest ih =>
    rw [sweepGo_cons]
    split_ifs with hc
    · show Event.notify _ _ :: Event.removeLeader _ :: (sweepGo rest (recruitLoop l ms).2).events
        = notifierCalls (⟨_, _⟩ :: (sweepGo rest (recruitLoop l ms).2).completed)
      rw [notifierCalls, ih]
    · exact ih _

theorem sweepGo_count (ls : List LeaderEntry) (ms : List MemberEntry) (uid : String) :
    ((sweepGo ls ms).completed.map CompletedTeam.leaderId).count uid
      + ((sweepGo ls ms).state.leaders.map LeaderEntry.userId).count uid
      = (ls.map LeaderEntry.userId).count uid := by
  induction ls generalizing ms with
  | nil => simp [sweepGo_nil]
  | cons l rest ih =>
    have hu := recruitLoop_userId l ms
    have hih := ih (recruitLoop l ms).2
    rw [sweepGo_cons]
    split_ifs with hc
    · show ((⟨(recruitLoop l ms).1.userId, _⟩ :: (sweepGo rest (recruitLoop l ms).2).completed).map
          CompletedTeam.leaderId).count uid + _ = _
      simp only [List.map_cons, List.count_cons, hu]
      omega
    · show _ + (((recruitLoop l ms).1 :: (sweepGo rest (recruitLoop l ms).2).state.leaders).map
          LeaderEntry.userId).count uid = _
      simp only [List.map_cons, List.count_cons, hu]
      omega

/-- All crew ids present in a sweep result: crews of the leaders still
queued and crews of the teams completed by the sweep. -/
def crewPool (r : SweepResult) : List String :=
  allCrews r.state.leaders ++ allCompletedCrews r.completed

theorem sweepGo_cons_pool_count (l : LeaderEntry) (rest : List LeaderEntry)
    (ms : List MemberEntry) (uid : String) :
    (crewPool (sweepGo (l :: rest) ms)).count uid
      = (recruitLoop l ms).1.crew.count uid
        + (crewPool (sweepGo rest (recruitLoop l ms).2)).count uid := by
  rw [sweepGo_cons]
  split_ifs with hc
  · simp only [crewPool, allCompletedCrews, List.count_append]
    omega
  · simp only [crewPool, allCrews, List.count_append]
    omega

theorem sweepGo_cons_pool_mem (l : LeaderEntry) (rest : List LeaderEntry)
    (ms : List MemberEntry) (x : String) :
    x ∈ crewPool (sweepGo (l :: rest) ms)
      ↔ x ∈ (recruitLoop l ms).1.crew ∨ x ∈ crewPool (sweepGo rest (recruitLoop l ms).2) := by
  rw [sweepGo_cons]
  split_ifs with hc <;>
    simp only [crewPool, allCrews, allCompletedCrews, List.mem_append] <;> tauto

theorem sweepGo_pool_subset (x : String) : ∀ (ls : List LeaderEntry) (ms : List MemberEntry),
    x ∈ crewPool (sweepGo ls ms) → x ∈ allCrews ls ∨ x ∈ ms.map MemberEntry.userId := by
  intro ls
  induction ls with
  | nil =>
    intro ms hx
    simp [crewPool, sweepGo_nil, allCrews, allCompletedCrews] at hx
  | cons l rest ih =>
    intro ms hx
    rcases (sweepGo_cons_pool_mem l rest ms x).1 hx with h | h
    · rcases recruitLoop_crew_subset l ms x h with h' | h'
      · exact Or.inl (List.mem_append_left _ h')
      · exact Or.inr h'
    · rcases ih _ h with h' | h'
      · exact Or.inl (List.mem_append_right _ h')
      · obtain ⟨k, hk⟩ := recruitLoop_drop l ms
        rw [hk, List.map_drop] at h'
        exact Or.inr (List.mem_of_mem_drop h')

theorem sweepGo_pool_count_zero (ls : List LeaderEntry) (ms : List MemberEntry) (x : String)
    (hms : x ∉ ms.map MemberEntry.userId) (hcr : x ∉ allCrews ls) :
    (crewPool (sweepGo ls ms)).count x = 0 := by
  rw [List.count_eq_zero]
  intro hx
  rcases sweepGo_pool_subset x ls ms hx with h | h
  · exact hcr h
  · exact hms h

theorem sweepGo_conservation (uid : String) : ∀ (ls : List LeaderEntry) (ms : List MemberEntry),
    (ls.map LeaderEntry.userId ++ allCrews ls ++ ms.map MemberEntry.userId).Nodup →
    uid ∈ ms.map MemberEntry.userId →
    (uid ∈ (sweepGo ls ms).state.members.map MemberEntry.userId
        ∧ (crewPool (sweepGo ls ms)).count uid = 0)
    ∨ (uid ∉ (sweepGo ls ms).state.members.map MemberEntry.userId
        ∧ (crewPool (sweepGo ls ms)).count uid = 1) := by
  intro ls
  induction ls with
  | nil =>
    intro ms hnd hm
    exact Or.inl ⟨hm, by simp [crewPool, sweepGo_nil, allCrews, allCompletedCrews]⟩
  | cons l rest ih =>
    intro ms hnd hm
    obtain ⟨hAB, hC, hdisj⟩ := List.nodup_append.1 hnd
    have hself : l.userId ∉ ms.map MemberEntry.userId := by
      intro hx
      exact hdisj (List.mem_append_left _ (by simp)) hx
    obtain ⟨k, hcrew, hdrop⟩ := recruitLoop_noSelf l ms hself
    have hmsplit : ms.map MemberEntry.userId
        = (ms.take k).map MemberEntry.userId ++ ((recruitLoop l ms).2).map MemberEntry.userId := by
      rw [hdrop, ← List.map_append, List.take_append_drop]
    have huid_nB : uid ∉ allCrews (l :: rest) := fun hx =>
      hdisj (List.mem_append_right _ hx) hm
    have huid_ncrewl : uid ∉ l.crew := fun hx =>
      huid_nB (List.mem_append_left _ hx)
    have huid_ncrewrest : uid ∉ allCrews rest := fun hx =>
      huid_nB (List.mem_append_right _ hx)
    have hnd' : (rest.map LeaderEntry.userId ++ allCrews rest
        ++ ((recruitLoop l ms).2).map MemberEntry.userId).Nodup := by
      refine hnd.sublist ?_
      rw [hdrop, List.map_drop]
      exact List.Sublist.append
        (List.Sublist.append (List.sublist_cons_self _ _) (List.sublist_append_right _ _))
        (List.drop_sublist _ _)
    by_cases huid : uid ∈ (ms.take k).map MemberEntry.userId
    · have hCn : ((ms.take k).map MemberEntry.userId
          ++ ((recruitLoop l ms).2).map MemberEntry.userId).Nodup := hmsplit ▸ hC
      obtain ⟨hCn1, hCn2, hCnd⟩ := List.nodup_append.1 hCn
      have hnotin' : uid ∉ ((recruitLoop l ms).2).map MemberEntry.userId := fun hx =>
        hCnd huid hx
      refine Or.inr ⟨?_, ?_⟩
      · intro hx
        obtain ⟨k2, hk2⟩ := sweepGo_members_drop rest (recruitLoop l ms).2
        rw [sweepGo_cons_members, hk2, List.map_drop] at hx
        exact hnotin' (List.mem_of_mem_drop hx)
      · rw [sweepGo_cons_pool_count]
        have h1 : (recruitLoop l ms).1.crew.count uid = 1 := by
          rw [hcrew, List.count_append]
          have h0 : l.crew.count uid = 0 := List.count_eq_zero.2 huid_ncrewl
          have hone : ((ms.take k).map MemberEntry.userId).count uid = 1 :=
            List.count_eq_one_of_mem hCn1 huid
          omega
        have h2 : (crewPool (sweepGo rest (recruitLoop l ms).2)).count uid = 0 :=
          sweepGo_pool_count_zero rest _ uid hnotin' huid_ncrewrest
        omega
    · have huid' : uid ∈ ((recruitLoop l ms).2).map MemberEntry.userId := by
        rw [hmsplit] at hm
        rcases List.mem_append.1 hm with h | h
        · exact absurd h huid
        · exact h
      have hcount0 : (recruitLoop l ms).1.crew.count uid = 0 := by
        rw [hcrew, List.count_append]
        have ha := List.count_eq_zero.2 huid_ncrewl
        have hb := List.count_eq_zero.2 huid
        omega
      rcases ih (recruitLoop l ms).2 hnd' huid' with ⟨hmem, hcnt⟩ | ⟨hmem, hcnt⟩
      · refine Or.inl ⟨?_, ?_⟩
        · rw [sweepGo_cons_members]; exact hmem
        · rw [sweepGo_cons_pool_count, hcount0, hcnt]
      · refine Or.inr ⟨?_, ?_⟩
        · rw [sweepGo_cons_members]; exact hmem
        · rw [sweepGo_cons_pool_count, hcount0, hcnt]

theorem mem_allCrews (ls : List LeaderEntry) (L : LeaderEntry) (x : String)
    (hL : L ∈ ls) (hx : x ∈ L.crew) : x ∈ allCrews ls := by
  induction ls with
  | nil => cases hL
  | cons a rest ih =>
    rcases List.mem_cons.1 hL with rfl | h
    · exact List.mem_append_left _ hx
    · exact List.mem_append_right _ (ih h)

theorem allCrews_disjoint (L l : LeaderEntry) (x : String) (hne : l ≠ L)
    (hxL : x ∈ L.crew) : ∀ ls : List LeaderEntry,
    (allCrews ls).Nodup → L ∈ ls → l ∈ ls → x ∉ l.crew := by
  intro ls
  induction ls with
  | nil => intro _ hL; cases hL
  | cons a rest ih =>
    intro hnd hL hl
    obtain ⟨ha, hrest, hd⟩ := List.nodup_append.1 hnd
    rcases List.mem_cons.1 hL with rfl | hL' <;> rcases List.mem_cons.1 hl with heq | hl'
    · exact absurd heq hne
    · exact fun hxl => hd hxL (mem_allCrews rest l x hl' hxl)
    · exact fun hxl => hd (heq ▸ hxl) (mem_allCrews rest L x hL' hxL)
    · exact ih hrest hL' hl'

/-! ### Lemmas about `setLeaderNeed` and the handler-level invariant -/

theorem setLeaderNeed_pos (uid : String) (n : Int) (hn : 0 < n) :
    ∀ ls : List LeaderEntry, (∀ l ∈ ls, 0 < l.additionalNeeded) →
      ∀ l' ∈ setLeaderNeed uid n ls, 0 < l'.additionalNeeded := by
  intro ls
  induction ls with
  | nil => intro _ l' h'; simp [setLeaderNeed] at h'
  | cons a rest ih =>
    intro h l' hl'
    simp only [setLeaderNeed] at hl'
    split_ifs at hl' with hcond
    · rcases List.mem_cons.1 hl' with rfl | h'
      · exact hn
      · exact h _ (List.mem_cons_of_mem _ h')
    · rcases List.mem_cons.1 hl' with rfl | h'
      · exact h _ (List.mem_cons_self _ _)
      · exact ih (fun x hx => h x (List.mem_cons_of_mem _ hx)) l' h'

theorem setLeaderNeed_mem_update (uid : String) (n : Int) :
    ∀ ls : List LeaderEntry, (∃ l ∈ ls, l.userId = uid) →
      ∃ l' ∈ setLeaderNeed uid n ls, l'.userId = uid ∧ l'.additionalNeeded = n := by
  intro ls
  induction ls with
  | nil => rintro ⟨l, h, _⟩; cases h
  | cons a rest ih =>
    rintro ⟨l, hl, hluid⟩
    simp only [setLeaderNeed]
    split_ifs with hcond
    · exact ⟨{ a with additionalNeeded := n }, List.mem_cons_self _ _, hcond, rfl⟩
    · rcases List.mem_cons.1 hl with rfl | h'
      · exact absurd hluid hcond
      · obtain ⟨l', hmem, h1, h2⟩ := ih ⟨l, h', hluid⟩
        exact ⟨l', List.mem_cons_of_mem _ hmem, h1, h2⟩

theorem tryMatching_state_eq (s : QueueState) :
    (tryMatching s).state = (sweepGo s.leaders s.members).state := rfl

/-- After any sweep over leaders who all still need members, either the
leader queue or the member queue has been exhausted; either way no id can
sit in both queues. -/
theorem tryMatching_inv (s : QueueState) (h : leaderNeedsPos s) :
    leaderNeedsPos (tryMatching s).state ∧ singleAffiliation (tryMatching s).state := by
  refine ⟨fun l' hl' => sweepGo_pos s.leaders s.members h l' hl', ?_⟩
  intro uid hl hm
  rcases sweepGo_drained s.leaders s.members h with hle | hme
  · rw [tryMatching_state_eq, hle] at hl
    simp at hl
  · rw [tryMatching_state_eq, hme] at hm
    simp at hm

/-- The preserved state-machine invariant: queued leaders still need at
least one member, and no id is in both queues. -/
def Inv (s : QueueState) : Prop := leaderNeedsPos s ∧ singleAffiliation s

theorem reach_inv {s : QueueState} (h : Reach s) : Inv s := by
  induction h with
  | start =>
    exact ⟨fun l hl => by simp at hl, fun uid hl => by simp at hl⟩
  | join uid t s hs ih =>
    by_cases h1 : ∃ l ∈ s.leaders, l.userId = uid
    · simpa [handleLookingForTeam, h1] using ih
    · by_cases h2 : ∃ m ∈ s.members, m.userId = uid
      · simpa [handleLookingForTeam, h1, h2] using ih
      · have hpos : leaderNeedsPos ⟨s.leaders, s.members ++ [⟨uid, t⟩]⟩ := ih.1
        have hres := tryMatching_inv _ hpos
        simpa [handleLookingForTeam, h1, h2, Inv] using hres
  | selectCount uid n t s hs hn ih =>
    have hnpos : (0:Int) < n := by rcases hn with rfl | rfl <;> norm_num
    by_cases h1 : ∃ l ∈ s.leaders, l.userId = uid
    · have hpos : leaderNeedsPos ⟨setLeaderNeed uid n s.leaders, s.members⟩ :=
        fun l' hl' => setLeaderNeed_pos uid n hnpos s.leaders ih.1 l' hl'
      have hres := tryMatching_inv _ hpos
      simpa [handleMemberCountSelect, h1, Inv] using hres
    · have hpos : leaderNeedsPos ⟨s.leaders ++ [⟨uid, n, [], t⟩], s.members⟩ := by
        intro l' hl'
        rcases List.mem_append.1 hl' with h' | h'
        · exact ih.1 l' h'
        · simp only [List.mem_singleton] at h'
          subst h'
          exact hnpos
      have hres := tryMatching_inv _ hpos
      simpa [handleMemberCountSelect, h1, Inv] using hres
  | switchToMember uid t s hs ih =>
    have hpos : leaderNeedsPos
        ⟨s.leaders.filter (fun l => decide (l.userId ≠ uid)), s.members ++ [⟨uid, t⟩]⟩ :=
      fun l' hl' => ih.1 l' (List.mem_of_mem_filter hl')
    have hres := tryMatching_inv _ hpos
    simpa [switchToTeamStep, switchToTeamMutate, Inv] using hres
  | switchToLeader uid s hs ih =>
    refine ⟨fun l hl => ih.1 l hl, ?_⟩
    intro u hl hm
    have hmem : u ∈ s.members.map MemberEntry.userId := by
      simp only [switchToLeaderStep] at hm
      obtain ⟨m, hmm, rfl⟩ := List.mem_map.1 hm
      exact List.mem_map.2 ⟨m, List.mem_of_mem_filter hmm, rfl⟩
    exact ih.2 u hl hmem
  | clear s hs ih =>
    exact ⟨fun l hl => by simp [adminClearStep] at hl,
      fun uid hl => by simp [adminClearStep] at hl⟩
  | sweep s hs ih =>
    exact tryMatching_inv s ih.1

theorem sweepGo_completed_size (ls : List LeaderEntry) (ms : List MemberEntry) :
    ∀ ct ∈ (sweepGo ls ms).completed, ∃ l ∈ ls, l.userId = ct.leaderId
      ∧ (ct.crewIds.length : Int) = l.additionalNeeded + l.crew.length := by
  induction ls generalizing ms with
  | nil => intro ct h; simp [sweepGo_nil] at h
  | cons l rest ih =>
    intro ct h
    rw [sweepGo_cons] at h
    split_ifs at h with hc
    · rcases List.mem_cons.1 h with rfl | h'
      · refine ⟨l, List.mem_cons_self _ _, (recruitLoop_userId l ms).symm, ?_⟩
        have hs := recruitLoop_sum l ms
        rw [hc] at hs
        show ((recruitLoop l ms).1.crew.length : Int) = _
        omega
      · obtain ⟨l0, hl0, h1, h2⟩ := ih _ ct h'
        exact ⟨l0, List.mem_cons_of_mem _ hl0, h1, h2⟩
    · obtain ⟨l0, hl0, h1, h2⟩ := ih _ ct h
      exact ⟨l0, List.mem_cons_of_mem _ hl0, h1, h2⟩

/-! ### Lemmas about the side-effect traces -/

theorem tryMatching_events_eq (s : QueueState) :
    (tryMatching s).events
      = Event.sweepStart :: notifierCalls (tryMatching s).completed
        ++ [Event.persist (tryMatching s).state.leaders (tryMatching s).state.members] := by
  show Event.sweepStart :: (sweepGo s.leaders s.members).events ++ _ = _
  rw [sweepGo_events_eq]
  rfl

theorem getLast?_cons_cons_concat (a b : Event) (l : List Event) (c : Event) :
    (a :: b :: l ++ [c]).getLast? = some c := by
  rw [show a :: b :: l ++ [c] = (a :: b :: l) ++ [c] by simp]
  exact List.getLast?_concat _

/-- Any handler that ends with `updateQueuesInRedis` inside `tryMatching`
after first persisting the mutated queues satisfies the
sweep-then-resync contract. -/
theorem handler_sweepThenResync (s1 : QueueState) :
    sweepThenResync ⟨(tryMatching s1).state,
      Event.persist s1.leaders s1.members :: (tryMatching s1).events⟩ := by
  constructor
  · rw [tryMatching_events_eq]
    exact List.mem_cons_of_mem _ (List.mem_cons_self _ _)
  · show (Event.persist s1.leaders s1.members :: (tryMatching s1).events).getLast? = _
    rw [tryMatching_events_eq]
    exact getLast?_cons_cons_concat _ _ _ _

theorem sweepGo_nil_members_noop (ls : List LeaderEntry)
    (hneed : ∀ l ∈ ls, l.additionalNeeded ≠ 0) :
    sweepGo ls [] = ⟨⟨ls, []⟩, [], []⟩ := by
  induction ls with
  | nil => rfl
  | cons l rest ih =>
    rw [sweepGo_cons]
    have h1 : (recruitLoop l ([] : List MemberEntry)).1.additionalNeeded ≠ 0 :=
      hneed l (List.mem_cons_self _ _)
    rw [if_neg h1, show recruitLoop l ([] : List MemberEntry) = (l, []) from rfl,
      ih (fun x hx => hneed x (List.mem_cons_of_mem _ hx))]

/-! ### The claims -/

/-- Claim C1: starting from empty queues, after any sequence of user
actions — request-join-team, request-become-leader or
update-recruitment-need with a supported count, switch-to-member,
switch-to-leader, admin clear, and matching sweeps — no userId is
registered simultaneously in the leader queue and in the member queue. -/
theorem claim1_single_affiliation {s : QueueState} (h : Reach s) :
    ∀ uid : String, uid ∈ s.leaders.map LeaderEntry.userId →
      uid ∉ s.members.map MemberEntry.userId :=
  (reach_inv h).2

theorem claim1_single_affiliation_witness :
    Reach (handleMemberCountSelect "b" (some 2) 1
      (handleLookingForTeam "a" 0 ⟨[], []⟩).state).state
    ∧ ∀ uid : String,
        uid ∈ (handleMemberCountSelect "b" (some 2) 1
          (handleLookingForTeam "a" 0 ⟨[], []⟩).state).state.leaders.map LeaderEntry.userId →
        uid ∉ (handleMemberCountSelect "b" (some 2) 1
          (handleLookingForTeam "a" 0 ⟨[], []⟩).state).state.members.map MemberEntry.userId :=
  ⟨Reach.selectCount "b" 2 1 _ (Reach.join "a" 0 _ Reach.start) (Or.inr rfl),
    claim1_single_affiliation
      (Reach.selectCount "b" 2 1 _ (Reach.join "a" 0 _ Reach.start) (Or.inr rfl))⟩

/-- Claim C2: the sweep consumes members from the front of the queue only
(the remaining member queue is always a suffix of the original), and in the
concrete scenario of members `[A, B, C]` with a single leader needing 2,
the sweep completes that leader with crew exactly `[A, B]` while the member
queue retains exactly `[C]`. -/
theorem claim2_fifo_order (s : QueueState) (a b c lid : String) (t0 t1 t2 t3 : Nat)
    (ha : lid ≠ a) (hb : lid ≠ b) :
    (∃ k, (tryMatching s).state.members = s.members.drop k)
    ∧ (tryMatching ⟨[⟨lid, 2, [], t0⟩], [⟨a, t1⟩, ⟨b, t2⟩, ⟨c, t3⟩]⟩).state
        = ⟨[], [⟨c, t3⟩]⟩
    ∧ (tryMatching ⟨[⟨lid, 2, [], t0⟩], [⟨a, t1⟩, ⟨b, t2⟩, ⟨c, t3⟩]⟩).completed
        = [⟨lid, [a, b]⟩] := by
  refine ⟨sweepGo_members_drop s.leaders s.members, ?_, ?_⟩
  · simp [tryMatching, sweepGo, recruitLoop, Ne.symm ha, Ne.symm hb]
  · simp [tryMatching, sweepGo, recruitLoop, Ne.symm ha, Ne.symm hb]

theorem claim2_fifo_order_witness :
    ("L" ≠ "A") ∧ ("L" ≠ "B")
    ∧ ((∃ k, (tryMatching ⟨[], []⟩).state.members = ([] : List MemberEntry).drop k)
        ∧ (tryMatching ⟨[⟨"L", 2, [], 0⟩], [⟨"A", 1⟩, ⟨"B", 2⟩, ⟨"C", 3⟩]⟩).state
            = ⟨[], [⟨"C", 3⟩]⟩
        ∧ (tryMatching ⟨[⟨"L", 2, [], 0⟩], [⟨"A", 1⟩, ⟨"B", 2⟩, ⟨"C", 3⟩]⟩).completed
            = [⟨"L", ["A", "B"]⟩]) :=
  ⟨by decide, by decide,
    claim2_fifo_order ⟨[], []⟩ "A" "B" "C" "L" 0 1 2 3 (by decide) (by decide)⟩

/-- Claim C3: assuming distinct leader ids, a leader entry is removed by
the sweep exactly when its remaining need reaches 0: every surviving
leader still has nonzero need, completions plus survivors account exactly
for every input leader, and each completed team is emitted exactly once,
for a leader no longer queued, with crew size exactly equal to the
originally requested total (prior crew plus remaining need). -/
theorem claim3_completion_threshold (s : QueueState)
    (hnd : (s.leaders.map LeaderEntry.userId).Nodup) :
    (∀ l' ∈ (tryMatching s).state.leaders, l'.additionalNeeded ≠ 0)
    ∧ (∀ uid : String,
        ((tryMatching s).completed.map CompletedTeam.leaderId).count uid
          + ((tryMatching s).state.leaders.map LeaderEntry.userId).count uid
          = (s.leaders.map LeaderEntry.userId).count uid)
    ∧ (∀ ct ∈ (tryMatching s).completed,
        ((tryMatching s).completed.map CompletedTeam.leaderId).count ct.leaderId = 1
        ∧ ct.leaderId ∉ (tryMatching s).state.leaders.map LeaderEntry.userId
        ∧ ∃ l ∈ s.leaders, l.userId = ct.leaderId
            ∧ (ct.crewIds.length : Int) = l.additionalNeeded + l.crew.length) := by
  refine ⟨sweepGo_kept_need s.leaders s.members,
    fun uid => sweepGo_count s.leaders s.members uid, ?_⟩
  intro ct hct
  have hct' : ct ∈ (sweepGo s.leaders s.members).completed := hct
  have hcount := sweepGo_count s.leaders s.members ct.leaderId
  have hmem : ct.leaderId ∈ (sweepGo s.leaders s.members).completed.map CompletedTeam.leaderId :=
    List.mem_map.2 ⟨ct, hct', rfl⟩
  have hpos : 0 < ((sweepGo s.leaders s.members).completed.map CompletedTeam.leaderId).count
      ct.leaderId := List.count_pos_iff.2 hmem
  have hle : (s.leaders.map LeaderEntry.userId).count ct.leaderId ≤ 1 :=
    List.nodup_iff_count_le_one.1 hnd _
  have h0 : ((sweepGo s.leaders s.members).state.leaders.map LeaderEntry.userId).count
      ct.leaderId = 0 := by omega
  refine ⟨?_, ?_, sweepGo_completed_size s.leaders s.members ct hct'⟩
  · show ((sweepGo s.leaders s.members).completed.map CompletedTeam.leaderId).count
      ct.leaderId = 1
    omega
  · show ct.leaderId ∉ (sweepGo s.leaders s.members).state.leaders.map LeaderEntry.userId
    exact List.count_eq_zero.1 h0

theorem claim3_completion_threshold_witness :
    ((⟨[⟨"L", 1, [], 0⟩], [⟨"A", 0⟩]⟩ : QueueState).leaders.map LeaderEntry.userId).Nodup
    ∧ ((∀ l' ∈ (tryMatching ⟨[⟨"L", 1, [], 0⟩], [⟨"A", 0⟩]⟩).state.leaders,
          l'.additionalNeeded ≠ 0)
      ∧ (∀ uid : String,
          ((tryMatching ⟨[⟨"L", 1, [], 0⟩], [⟨"A", 0⟩]⟩).completed.map
              CompletedTeam.leaderId).count uid
            + ((tryMatching ⟨[⟨"L", 1, [], 0⟩], [⟨"A", 0⟩]⟩).state.leaders.map
              LeaderEntry.userId).count uid
            = ((⟨[⟨"L", 1, [], 0⟩], [⟨"A", 0⟩]⟩ : QueueState).leaders.map
              LeaderEntry.userId).count uid)
      ∧ (∀ ct ∈ (tryMatching ⟨[⟨"L", 1, [], 0⟩], [⟨"A", 0⟩]⟩).completed,
          ((tryMatching ⟨[⟨"L", 1, [], 0⟩], [⟨"A", 0⟩]⟩).completed.map
              CompletedTeam.leaderId).count ct.leaderId = 1
          ∧ ct.leaderId ∉ (tryMatching ⟨[⟨"L", 1, [], 0⟩], [⟨"A", 0⟩]⟩).state.leaders.map
              LeaderEntry.userId
          ∧ ∃ l ∈ (⟨[⟨"L", 1, [], 0⟩], [⟨"A", 0⟩]⟩ : QueueState).leaders,
              l.userId = ct.leaderId
              ∧ (ct.crewIds.length : Int) = l.additionalNeeded + l.crew.length)) :=
  ⟨by decide, claim3_completion_threshold ⟨[⟨"L", 1, [], 0⟩], [⟨"A", 0⟩]⟩ (by decide)⟩

/-- Claim C4: on a well-formed queue state (all ids distinct across
leaders, crews and members), each queued member is either untouched by the
sweep (still in the member queue, in no crew) or consumed by it, in which
case it appears exactly once across all crews — those of leaders still
queued and those of completed teams — and is gone from the member queue. -/
theorem claim4_conservation (s : QueueState) (hwf : WFIds s) :
    ∀ m ∈ s.members,
      (m.userId ∈ (tryMatching s).state.members.map MemberEntry.userId
          ∧ (crewPool (tryMatching s)).count m.userId = 0)
      ∨ (m.userId ∉ (tryMatching s).state.members.map MemberEntry.userId
          ∧ (crewPool (tryMatching s)).count m.userId = 1) := by
  intro m hm
  exact sweepGo_conservation m.userId s.leaders s.members hwf (List.mem_map.2 ⟨m, hm, rfl⟩)

theorem claim4_conservation_witness :
    WFIds ⟨[⟨"L", 1, [], 0⟩], [⟨"A", 0⟩, ⟨"B", 1⟩]⟩
    ∧ ∀ m ∈ (⟨[⟨"L", 1, [], 0⟩], [⟨"A", 0⟩, ⟨"B", 1⟩]⟩ : QueueState).members,
      (m.userId ∈ (tryMatching ⟨[⟨"L", 1, [], 0⟩], [⟨"A", 0⟩, ⟨"B", 1⟩]⟩).state.members.map
            MemberEntry.userId
          ∧ (crewPool (tryMatching ⟨[⟨"L", 1, [], 0⟩], [⟨"A", 0⟩, ⟨"B", 1⟩]⟩)).count
              m.userId = 0)
      ∨ (m.userId ∉ (tryMatching ⟨[⟨"L", 1, [], 0⟩], [⟨"A", 0⟩, ⟨"B", 1⟩]⟩).state.members.map
            MemberEntry.userId
          ∧ (crewPool (tryMatching ⟨[⟨"L", 1, [], 0⟩], [⟨"A", 0⟩, ⟨"B", 1⟩]⟩)).count
              m.userId = 1) :=
  ⟨by decide, claim4_conservation ⟨[⟨"L", 1, [], 0⟩], [⟨"A", 0⟩, ⟨"B", 1⟩]⟩ (by decide)⟩

/-- Claim C5 counterexample: the `switch_to_leader` branch is an
externally triggered mutation (it removes the user's member entry) that is
followed by neither a matching sweep nor a Redis resync — its event trace
is empty, so the persisted snapshot does not reflect the mutated state. -/
theorem claim5_counterexample :
    (switchToLeaderStep "u" ⟨[], [⟨"u", 0⟩]⟩).state ≠ (⟨[], [⟨"u", 0⟩]⟩ : QueueState)
    ∧ (switchToLeaderStep "u" ⟨[], [⟨"u", 0⟩]⟩).events = [] := by
  constructor
  · decide
  · rfl

/-- Claim C5 (amended): the join-team enqueue, the member-count selection
(leader creation or need update), and switch-to-member each run a matching
sweep immediately after the mutation and finish with a Redis write of
exactly the post-sweep in-memory queues; switch-to-leader, by contrast,
mutates the member queue with neither a sweep nor a resync. -/
theorem claim5_sweep_resync (uid : String) (t : Nat) (n : Int) (s : QueueState) :
    ((¬ ∃ l ∈ s.leaders, l.userId = uid) → (¬ ∃ m ∈ s.members, m.userId = uid) →
        sweepThenResync (handleLookingForTeam uid t s))
    ∧ sweepThenResync (handleMemberCountSelect uid (some n) t s)
    ∧ sweepThenResync (switchToTeamStep uid t s)
    ∧ (switchToLeaderStep uid s).events = [] := by
  refine ⟨?_, ?_, ?_, rfl⟩
  · intro hl hm
    unfold handleLookingForTeam
    rw [if_neg hl, if_neg hm]
    exact handler_sweepThenResync _
  · exact handler_sweepThenResync _
  · exact handler_sweepThenResync _

theorem claim5_sweep_resync_witness :
    ((¬ ∃ l ∈ (⟨[], []⟩ : QueueState).leaders, l.userId = "u")
      ∧ (¬ ∃ m ∈ (⟨[], []⟩ : QueueState).members, m.userId = "u")
      ∧ sweepThenResync (handleLookingForTeam "u" 0 ⟨[], []⟩))
    ∧ sweepThenResync (handleMemberCountSelect "L" (some 2) 0 ⟨[⟨"L", 1, [], 0⟩], []⟩)
    ∧ sweepThenResync (switchToTeamStep "L" 0 ⟨[⟨"L", 1, [], 0⟩], []⟩)
    ∧ (switchToLeaderStep "u" ⟨[], []⟩).events = [] :=
  ⟨⟨by decide, by decide,
      (claim5_sweep_resync "u" 0 2 ⟨[], []⟩).1 (by decide) (by decide)⟩,
    (claim5_sweep_resync "L" 0 2 ⟨[⟨"L", 1, [], 0⟩], []⟩).2.1,
    (claim5_sweep_resync "L" 0 2 ⟨[⟨"L", 1, [], 0⟩], []⟩).2.2.1,
    (claim5_sweep_resync "u" 0 2 ⟨[], []⟩).2.2.2⟩

/-- Claim C6 counterexample: in a sweep that completes a team, the
notifier call (`createTeamThread`) is emitted before the leader's removal
from the queue and before the Redis persist — not after them as the claim
requires. -/
theorem claim6_counterexample :
    (tryMatching ⟨[⟨"L", 1, [], 0⟩], [⟨"m", 0⟩]⟩).events
      = [Event.sweepStart, Event.notify "L" ["m"], Event.removeLeader "L",
          Event.persist [] []]
    ∧ (tryMatching ⟨[⟨"L", 1, [], 0⟩], [⟨"m", 0⟩]⟩).events.indexOf
          (Event.notify "L" ["m"])
        < (tryMatching ⟨[⟨"L", 1, [], 0⟩], [⟨"m", 0⟩]⟩).events.indexOf
          (Event.removeLeader "L")
    ∧ (tryMatching ⟨[⟨"L", 1, [], 0⟩], [⟨"m", 0⟩]⟩).events.indexOf
          (Event.notify "L" ["m"])
        < (tryMatching ⟨[⟨"L", 1, [], 0⟩], [⟨"m", 0⟩]⟩).events.indexOf
          (Event.persist [] []) := by
  refine ⟨by decide, by decide, by decide⟩

/-- Claim C6 (amended): every sweep's side-effect trace is exactly one
notifier call per completed team, each immediately followed (not preceded)
by that leader's removal from the queue, with the single Redis persist of
the final queues coming after all of them. -/
theorem claim6_notifier_order (s : QueueState) :
    (tryMatching s).events
      = Event.sweepStart :: notifierCalls (tryMatching s).completed
        ++ [Event.persist (tryMatching s).state.leaders (tryMatching s).state.members] :=
  tryMatching_events_eq s

/-- Claim C7: a sweep over a state with an empty member queue and no
leader whose remaining need is already 0 returns the leader queue
unchanged, completes no team, and repeated sweeps keep returning the same
result. -/
theorem claim7_empty_sweep (s : QueueState) (hm : s.members = [])
    (hneed : ∀ l ∈ s.leaders, l.additionalNeeded ≠ 0) :
    (tryMatching s).state = s ∧ (tryMatching s).completed = []
    ∧ tryMatching ((tryMatching s).state) = tryMatching s := by
  have hgo := sweepGo_nil_members_noop s.leaders hneed
  have hstate : (tryMatching s).state = s := by
    rw [tryMatching_state_eq, hm, hgo]
    exact QueueState.ext rfl hm.symm
  refine ⟨hstate, ?_, by rw [hstate]⟩
  show (sweepGo s.leaders s.members).completed = []
  rw [hm, hgo]

theorem claim7_empty_sweep_witness :
    ((⟨[⟨"L", 2, [], 0⟩], []⟩ : QueueState).members = [])
    ∧ (∀ l ∈ (⟨[⟨"L", 2, [], 0⟩], []⟩ : QueueState).leaders, l.additionalNeeded ≠ 0)
    ∧ ((tryMatching ⟨[⟨"L", 2, [], 0⟩], []⟩).state = (⟨[⟨"L", 2, [], 0⟩], []⟩ : QueueState)
        ∧ (tryMatching ⟨[⟨"L", 2, [], 0⟩], []⟩).completed = []
        ∧ tryMatching ((tryMatching ⟨[⟨"L", 2, [], 0⟩], []⟩).state)
            = tryMatching ⟨[⟨"L", 2, [], 0⟩], []⟩) :=
  ⟨rfl, by decide, claim7_empty_sweep ⟨[⟨"L", 2, [], 0⟩], []⟩ rfl (by decide)⟩

/-- Claim C8 counterexample: the selection value `3`, outside the
supported set `{1, 2}`, is not rejected by `handleMemberCountSelect`: the
state changes and a leader entry is created with `additionalNeeded = 3`. -/
theorem claim8_counterexample :
    (handleMemberCountSelect "u" (some 3) 0 ⟨[], []⟩).state ≠ (⟨[], []⟩ : QueueState)
    ∧ ∃ l ∈ (handleMemberCountSelect "u" (some 3) 0 ⟨[], []⟩).state.leaders,
        l.additionalNeeded = 3 ∧ ¬(l.additionalNeeded = 1 ∨ l.additionalNeeded = 2) := by
  decide

/-- Claim C8 (amended): the member-count handler rejects exactly the
selections whose `parseInt` is `NaN` (no state change, no side effect);
every successfully parsed integer `n` — whether or not it lies in `{1, 2}`
— is accepted, and the queues first persisted by the handler contain a
leader entry for the user with `additionalNeeded = n`.  The restriction to
`{1, 2}` lives only in the select menu's options, not in the handler. -/
theorem claim8_selection_handling (uid : String) (t : Nat) (s : QueueState) :
    ((handleMemberCountSelect uid none t s).state = s
      ∧ (handleMemberCountSelect uid none t s).events = [])
    ∧ ∀ n : Int, ∃ ls ms,
        (handleMemberCountSelect uid (some n) t s).events.head?
          = some (Event.persist ls ms)
        ∧ ∃ l ∈ ls, l.userId = uid ∧ l.additionalNeeded = n := by
  refine ⟨⟨rfl, rfl⟩, ?_⟩
  intro n
  by_cases h1 : ∃ l ∈ s.leaders, l.userId = uid
  · refine ⟨setLeaderNeed uid n s.leaders, s.members, ?_, ?_⟩
    · simp [handleMemberCountSelect, h1]
    · exact setLeaderNeed_mem_update uid n s.leaders h1
  · refine ⟨s.leaders ++ [⟨uid, n, [], t⟩], s.members, ?_, ?_⟩
    · simp [handleMemberCountSelect, h1]
    · exact ⟨⟨uid, n, [], t⟩, List.mem_append_right _ (List.mem_cons_self _ _), rfl, rfl⟩

/-- Claim C9 counterexample: interrupting `updateQueuesInRedis` after its
first `set` leaves the store holding the new leader queue together with
the old member queue — a persisted state that is neither the old nor the
new snapshot. -/
theorem claim9_counterexample :
    applyOps ⟨[], [⟨"old", 0⟩]⟩ ((updateQueuesInRedis ⟨[⟨"L", 1, [], 0⟩], []⟩).take 1)
      = ⟨[⟨"L", 1, [], 0⟩], [⟨"old", 0⟩]⟩
    ∧ applyOps ⟨[], [⟨"old", 0⟩]⟩ ((updateQueuesInRedis ⟨[⟨"L", 1, [], 0⟩], []⟩).take 1)
        ≠ ⟨[], [⟨"old", 0⟩]⟩
    ∧ applyOps ⟨[], [⟨"old", 0⟩]⟩ ((updateQueuesInRedis ⟨[⟨"L", 1, [], 0⟩], []⟩).take 1)
        ≠ applyOps ⟨[], [⟨"old", 0⟩]⟩ (updateQueuesInRedis ⟨[⟨"L", 1, [], 0⟩], []⟩) := by
  decide

/-- Claim C9 (amended): `updateQueuesInRedis` issues two separate
sequential `set` operations — leaders first, then members — each carrying
the full current queue for its key.  Running both yields the full
snapshot, but the pair is not atomic: stopping after the first write
leaves the new leaders paired with the old members, a store equal to
neither endpoint whenever the corresponding queues changed. -/
theorem claim9_two_phase_save (s : QueueState) (st : RedisStore) :
    updateQueuesInRedis s = [RedisOp.setLeaders s.leaders, RedisOp.setMembers s.members]
    ∧ applyOps st (updateQueuesInRedis s) = ⟨s.leaders, s.members⟩
    ∧ applyOps st ((updateQueuesInRedis s).take 1) = ⟨s.leaders, st.membersVal⟩
    ∧ (s.leaders ≠ st.leadersVal →
        applyOps st ((updateQueuesInRedis s).take 1) ≠ st)
    ∧ (s.members ≠ st.membersVal →
        applyOps st ((updateQueuesInRedis s).take 1) ≠ applyOps st (updateQueuesInRedis s)) := by
  refine ⟨rfl, rfl, rfl, ?_, ?_⟩
  · intro hne heq
    exact hne (congrArg RedisStore.leadersVal heq)
  · intro hne heq
    exact hne (congrArg RedisStore.membersVal heq).symm

theorem claim9_two_phase_save_witness :
    (([⟨"L", 1, [], 0⟩] : List LeaderEntry) ≠ ([] : List LeaderEntry))
    ∧ (([] : List MemberEntry) ≠ [⟨"old", 0⟩])
    ∧ (updateQueuesInRedis ⟨[⟨"L", 1, [], 0⟩], []⟩
          = [RedisOp.setLeaders [⟨"L", 1, [], 0⟩], RedisOp.setMembers []]
        ∧ applyOps ⟨[], [⟨"old", 0⟩]⟩ (updateQueuesInRedis ⟨[⟨"L", 1, [], 0⟩], []⟩)
          = ⟨[⟨"L", 1, [], 0⟩], []⟩
        ∧ applyOps ⟨[], [⟨"old", 0⟩]⟩ ((updateQueuesInRedis ⟨[⟨"L", 1, [], 0⟩], []⟩).take 1)
          = ⟨[⟨"L", 1, [], 0⟩], [⟨"old", 0⟩]⟩
        ∧ (([⟨"L", 1, [], 0⟩] : List LeaderEntry) ≠ [] →
            applyOps ⟨[], [⟨"old", 0⟩]⟩ ((updateQueuesInRedis ⟨[⟨"L", 1, [], 0⟩], []⟩).take 1)
              ≠ ⟨[], [⟨"old", 0⟩]⟩)
        ∧ (([] : List MemberEntry) ≠ [⟨"old", 0⟩] →
            applyOps ⟨[], [⟨"old", 0⟩]⟩ ((updateQueuesInRedis ⟨[⟨"L", 1, [], 0⟩], []⟩).take 1)
              ≠ applyOps ⟨[], [⟨"old", 0⟩]⟩ (updateQueuesInRedis ⟨[⟨"L", 1, [], 0⟩], []⟩))) :=
  ⟨by decide, by decide, claim9_two_phase_save ⟨[⟨"L", 1, [], 0⟩], []⟩ ⟨[], [⟨"old", 0⟩]⟩⟩

/-- Claim C10: when a queued leader switches to member, the mutation
removes that leader's entire entry (no entry with their id survives, all
other entries survive verbatim and in order), appends exactly one fresh
member entry for the leader's own id with the current timestamp at the
tail of the member queue, and — on a well-formed state — returns none of
the abandoned crew to the member queue or to any other leader's crew. -/
theorem claim10_switch_destroys_crew (s : QueueState) (uid : String) (t : Nat)
    (L : LeaderEntry) (hL : L ∈ s.leaders) (huid : L.userId = uid) (hwf : WFIds s) :
    (∀ l ∈ (switchToTeamMutate uid t s).leaders, l.userId ≠ uid)
    ∧ (∀ l : LeaderEntry,
        l ∈ (switchToTeamMutate uid t s).leaders ↔ l ∈ s.leaders ∧ l.userId ≠ uid)
    ∧ List.Sublist (switchToTeamMutate uid t s).leaders s.leaders
    ∧ (switchToTeamMutate uid t s).members = s.members ++ [⟨uid, t⟩]
    ∧ ∀ x ∈ L.crew, x ∉ (switchToTeamMutate uid t s).members.map MemberEntry.userId
        ∧ ∀ l ∈ (switchToTeamMutate uid t s).leaders, x ∉ l.crew := by
  obtain ⟨hAB, hC, hdisj⟩ := List.nodup_append.1 hwf
  obtain ⟨hA, hB, hABd⟩ := List.nodup_append.1 hAB
  refine ⟨?_, ?_, List.filter_sublist _, rfl, ?_⟩
  · intro l hl
    have := List.mem_filter.1 hl
    simpa using this.2
  · intro l
    constructor
    · intro hl
      have := List.mem_filter.1 hl
      exact ⟨this.1, by simpa using this.2⟩
    · intro ⟨h1, h2⟩
      exact List.mem_filter.2 ⟨h1, by simpa using h2⟩
  · intro x hx
    have hxB : x ∈ allCrews s.leaders := mem_allCrews _ L x hL hx
    have hxnC : x ∉ s.members.map MemberEntry.userId := fun hc =>
      hdisj (List.mem_append_right _ hxB) hc
    have hxnuid : x ≠ uid := by
      intro heq
      exact hABd (List.mem_map.2 ⟨L, hL, heq ▸ huid⟩) hxB
    constructor
    · intro hc
      simp only [switchToTeamMutate, List.map_append, List.map_cons, List.map_nil,
        List.mem_append, List.mem_singleton] at hc
      rcases hc with hc | hc
      · exact hxnC hc
      · exact hxnuid hc
    · intro l hl hxl
      have hl2 := List.mem_filter.1 hl
      have hlm : l ∈ s.leaders := hl2.1
      have hlneq : l ≠ L := by
        intro heq
        have : l.userId ≠ uid := by simpa using hl2.2
        exact this (heq ▸ huid)
      exact allCrews_disjoint L l x hlneq hx s.leaders hB hL hlm hxl

theorem claim10_switch_destroys_crew_witness :
    ((⟨"L", 1, ["M1"], 0⟩ : LeaderEntry)
        ∈ (⟨[⟨"L", 1, ["M1"], 0⟩, ⟨"K", 2, [], 0⟩], [⟨"x", 0⟩]⟩ : QueueState).leaders)
    ∧ ((⟨"L", 1, ["M1"], 0⟩ : LeaderEntry).userId = "L")
    ∧ WFIds ⟨[⟨"L", 1, ["M1"], 0⟩, ⟨"K", 2, [], 0⟩], [⟨"x", 0⟩]⟩
    ∧ ((∀ l ∈ (switchToTeamMutate "L" 7
            ⟨[⟨"L", 1, ["M1"], 0⟩, ⟨"K", 2, [], 0⟩], [⟨"x", 0⟩]⟩).leaders, l.userId ≠ "L")
      ∧ (∀ l : LeaderEntry,
          l ∈ (switchToTeamMutate "L" 7
              ⟨[⟨"L", 1, ["M1"], 0⟩, ⟨"K", 2, [], 0⟩], [⟨"x", 0⟩]⟩).leaders
            ↔ l ∈ (⟨[⟨"L", 1, ["M1"], 0⟩, ⟨"K", 2, [], 0⟩], [⟨"x", 0⟩]⟩ : QueueState).leaders
              ∧ l.userId ≠ "L")
      ∧ List.Sublist (switchToTeamMutate "L" 7
            ⟨[⟨"L", 1, ["M1"], 0⟩, ⟨"K", 2, [], 0⟩], [⟨"x", 0⟩]⟩).leaders
          (⟨[⟨"L", 1, ["M1"], 0⟩, ⟨"K", 2, [], 0⟩], [⟨"x", 0⟩]⟩ : QueueState).leaders
      ∧ (switchToTeamMutate "L" 7
            ⟨[⟨"L", 1, ["M1"], 0⟩, ⟨"K", 2, [], 0⟩], [⟨"x", 0⟩]⟩).members
          = (⟨[⟨"L", 1, ["M1"], 0⟩, ⟨"K", 2, [], 0⟩], [⟨"x", 0⟩]⟩ : QueueState).members
            ++ [⟨"L", 7⟩]
      ∧ ∀ x ∈ (⟨"L", 1, ["M1"], 0⟩ : LeaderEntry).crew,
          x ∉ (switchToTeamMutate "L" 7
              ⟨[⟨"L", 1, ["M1"], 0⟩, ⟨"K", 2, [], 0⟩], [⟨"x", 0⟩]⟩).members.map
              MemberEntry.userId
          ∧ ∀ l ∈ (switchToTeamMutate "L" 7
              ⟨[⟨"L", 1, ["M1"], 0⟩, ⟨"K", 2, [], 0⟩], [⟨"x", 0⟩]⟩).leaders, x ∉ l.crew) :=
  ⟨by decide, rfl, by decide,
    claim10_switch_destroys_crew ⟨[⟨"L", 1, ["M1"], 0⟩, ⟨"K", 2, [], 0⟩], [⟨"x", 0⟩]⟩
      "L" 7 ⟨"L", 1, ["M1"], 0⟩ (by decide) rfl (by decide)⟩

end RcBot
